import Mathlib

/-! Shell daemon task executor.

A shallow embedding of `task_executor.go` and of the D-Bus entry points of
`shell_server.go` that call into it.

Conventions of the embedding:

* Go `int` is the 64-bit two's complement integer; the only arithmetic the code
  does on it is `tl.counter++`, modelled by `wrapInt (counter + 1)`.
* A Go `string` is its sequence of bytes; runes are read from it and written to
  it in UTF-8 as the Go library does.
* The map `tl.tasks` is an association list with at most one entry per key;
  Go's iteration order is unspecified and no definition below depends on it.
* The operating system (process start, exit, temp-file creation) is an explicit
  argument of the function that consults it.
* A run-time panic (nil pointer dereference) is the result `none` / `Res.fault`.
* Every goroutine body is run from start to end. One change made by another
  goroutine during a call is an input: the `Wait` for a task's own process that
  returns while `GetAsyncTaskOutput` blocks in the `tail` run.
-/

namespace ShellDaemon

/-! ## Machine integers -/

/-- Largest value of a Go `int` on a 64-bit platform. -/
def maxInt : Int := 2 ^ 63 - 1

/-- Reduction of a mathematical integer to the Go `int` range (two's complement). -/
def wrapInt (x : Int) : Int := (x + 2 ^ 63) % 2 ^ 64 - 2 ^ 63

/-! ## Strings -/

/-- A Go `string`: its sequence of bytes, each a number below 256. -/
abbrev GoString := List Nat

/-- Go `utf8.RuneError`, the rune U+FFFD. -/
def RuneError : Nat := 0xFFFD

/-- Go `utf8.DecodeRuneInString`: the first rune of `s` and its width in bytes.
The table `first` and the accept ranges are written as comparisons; a mask is a
remainder and a shift a multiplication. A byte that starts no valid UTF-8
sequence gives `(RuneError, 1)`. -/
def decodeRune (s : GoString) : Nat × Nat :=
  let n := s.length
  if n < 1 then (RuneError, 0)
  else
    let s0 := s.getD 0 0
    if s0 < 0x80 then (s0, 1)
    else if s0 < 0xC2 ∨ 0xF4 < s0 then (RuneError, 1)
    else
      let sz := if s0 < 0xE0 then 2 else if s0 < 0xF0 then 3 else 4
      let lo := if s0 = 0xE0 then 0xA0 else if s0 = 0xF0 then 0x90 else 0x80
      let hi := if s0 = 0xED then 0x9F else if s0 = 0xF4 then 0x8F else 0xBF
      if n < sz then (RuneError, 1)
      else
        let s1 := s.getD 1 0
        if s1 < lo ∨ hi < s1 then (RuneError, 1)
        else if sz ≤ 2 then ((s0 % 32) * 64 + s1 % 64, 2)
        else
          let s2 := s.getD 2 0
          if s2 < 0x80 ∨ 0xBF < s2 then (RuneError, 1)
          else if sz ≤ 3 then ((s0 % 16) * 4096 + (s1 % 64) * 64 + s2 % 64, 3)
          else
            let s3 := s.getD 3 0
            if s3 < 0x80 ∨ 0xBF < s3 then (RuneError, 1)
            else ((s0 % 8) * 262144 + (s1 % 64) * 4096 + (s2 % 64) * 64 + s3 % 64, 4)

/-- Go `utf8.AppendRune` on a rune that is not negative: the UTF-8 encoding of
`r`, that of `RuneError` when `r` is a surrogate or above U+10FFFF. -/
def encodeRune (r : Nat) : GoString :=
  if r ≤ 0x7F then [r]
  else if r ≤ 0x7FF then [0xC0 + r / 64, 0x80 + r % 64]
  else if 0x10FFFF < r ∨ (0xD800 ≤ r ∧ r ≤ 0xDFFF) then [0xEF, 0xBF, 0xBD]
  else if r ≤ 0xFFFF then [0xE0 + r / 4096, 0x80 + r / 64 % 64, 0x80 + r % 64]
  else [0xF0 + r / 262144, 0x80 + r / 4096 % 64, 0x80 + r / 64 % 64, 0x80 + r % 64]

/-- The UTF-8 encoding of a sequence of runes. -/
def encodeRunes : List Nat → GoString
  | [] => []
  | r :: rs => encodeRune r ++ encodeRunes rs

/-- The Go string constant that the source writes as `s`. -/
def go (s : String) : GoString := encodeRunes (s.data.map Char.toNat)

/-- The runes that `for _, c := range s` yields. `skip` is the number of bytes
of the rune read last that are still ahead. -/
def runesLoop : Nat → GoString → List Nat
  | _, [] => []
  | skip + 1, _ :: rest => runesLoop skip rest
  | 0, b :: rest => (decodeRune (b :: rest)).1 :: runesLoop ((decodeRune (b :: rest)).2 - 1) rest

/-- The runes of a Go string, as `range` reads them. -/
def runes (s : GoString) : List Nat := runesLoop 0 s

/-- Go `utf8.ValidString`, as a loop over the runes: no byte is read as an
encoding error. -/
def validLoop : Nat → GoString → Bool
  | _, [] => true
  | skip + 1, _ :: rest => validLoop skip rest
  | 0, b :: rest =>
    !((decodeRune (b :: rest)).1 == RuneError && (decodeRune (b :: rest)).2 == 1) &&
      validLoop ((decodeRune (b :: rest)).2 - 1) rest

/-- Go `utf8.ValidString`. -/
def validString (s : GoString) : Bool := validLoop 0 s

/-- Worker of `stringsMap`, a loop over the runes of the string as in `runesLoop`. -/
def mapLoop (mapping : Nat → Int) : Nat → GoString → GoString
  | _, [] => []
  | skip + 1, _ :: rest => mapLoop mapping skip rest
  | 0, b :: rest =>
    (if 0 ≤ mapping (decodeRune (b :: rest)).1
      then encodeRune (mapping (decodeRune (b :: rest)).1).toNat else []) ++
      mapLoop mapping ((decodeRune (b :: rest)).2 - 1) rest

/-- Go `strings.Map`: every rune `c` of `s` is replaced by `mapping c`, written in
UTF-8; a negative value drops the rune. -/
def stringsMap (mapping : Nat → Int) (s : GoString) : GoString := mapLoop mapping 0 s

/-- Go `unicode.IsSpace`. -/
def isSpace (n : Nat) : Bool :=
  (9 ≤ n && n ≤ 13) || n == 32 || n == 0x85 || n == 0xA0 || n == 0x1680 ||
  (0x2000 ≤ n && n ≤ 0x200A) || n == 0x2028 || n == 0x2029 || n == 0x202F ||
  n == 0x205F || n == 0x3000

/-- Worker of `stringsFields`: `cur` is the field being read. -/
def fieldsLoop : Nat → GoString → GoString → List GoString
  | _, [], cur => if cur.isEmpty then [] else [cur]
  | skip + 1, _ :: rest, cur => fieldsLoop skip rest cur
  | 0, b :: rest, cur =>
    if isSpace (decodeRune (b :: rest)).1 then
      (if cur.isEmpty then fieldsLoop ((decodeRune (b :: rest)).2 - 1) rest []
       else cur :: fieldsLoop ((decodeRune (b :: rest)).2 - 1) rest [])
    else
      fieldsLoop ((decodeRune (b :: rest)).2 - 1) rest
        (cur ++ (b :: rest).take (decodeRune (b :: rest)).2)

/-- Go `strings.Fields`: the maximal runs of runes of `s` that are not spaces. -/
def stringsFields (s : GoString) : List GoString := fieldsLoop 0 s []

/-- Decimal text of an integer, as `%v` prints it. -/
def fmtInt (i : Int) : GoString := go (toString i)

/-! ## Constants -/

def env_path : GoString := go "PATH=/bin:/sbin:/usr/bin:/usr/sbin:/usr/local/bin:/usr/local/sbin"
def on_process : Int := 1
def on_closed : Int := 2
def on_error : Int := 3
def on_none : Int := 0
def err_code : Int := -1

/-! ## TaskResult -/

/-- Go `TaskResult`. -/
structure TaskResult where
  Code : Int
  Msg : GoString
  deriving DecidableEq, Repr

/-- Go `AsyncResult`. -/
structure AsyncResult where
  Key : Int
  Code : Int
  Msg : GoString
  deriving DecidableEq, Repr

/-- The mapping function passed to `strings.Map` in `Fill`. -/
def fillMapping (r : Nat) : Int := if r ≠ 0 then (r : Int) else -1

/-- Go `TaskResult.Fill`. -/
def TaskResult.Fill (_result : TaskResult) (code : Int) (msg : GoString) : TaskResult :=
  { Code := code, Msg := stringsMap fillMapping msg }

/-! ## Processes (`os/exec`) -/

/-- Go `os.ProcessState` of a process that has been waited for. `exited` is
`Exited()`: the process ended by calling exit, not by a signal. `status` is the
exit status of an exited process. -/
structure ProcessState where
  exited : Bool
  status : Nat
  deriving DecidableEq, Repr

def ProcessState.Exited (ps : ProcessState) : Bool := ps.exited

/-- Go `ProcessState.Success`: exit status 0 (the status of a signalled process is -1). -/
def ProcessState.Success (ps : ProcessState) : Bool := ps.exited && ps.status == 0

/-- The pair (`cmd.Process`, `cmd.ProcessState`) of an `exec.Cmd`. `Start` sets
`Process`; `Wait` sets `ProcessState` once the process has been reaped, so a
state without a process does not occur. -/
inductive Proc where
  | notStarted
  | started (pid : Int)
  | finished (pid : Int) (ps : ProcessState)
  deriving DecidableEq, Repr

/-- Go `exec.Cmd`, the fields the daemon uses. -/
structure Cmd where
  Args : List GoString
  Env : List GoString
  Stdout : Option GoString
  Stderr : Option GoString
  proc : Proc
  deriving DecidableEq, Repr

/-- The field `cmd.Process` (`none` is nil). -/
def Cmd.Process (c : Cmd) : Option Int :=
  match c.proc with
  | .notStarted => none
  | .started pid => some pid
  | .finished pid _ => some pid

/-- The field `cmd.ProcessState` (`none` is nil). -/
def Cmd.ProcessState (c : Cmd) : Option ProcessState :=
  match c.proc with
  | .finished _ ps => some ps
  | _ => none

/-- Go `exec.Command`. -/
def execCommand (name : GoString) (arg : List GoString) : Cmd :=
  { Args := name :: arg, Env := [], Stdout := none, Stderr := none, proc := .notStarted }

/-- What the operating system does with a command that is run. -/
inductive RunOutcome where
  /-- The process could not be started; `Start` returns the error. -/
  | startFailed (err : GoString)
  /-- The process ran, wrote `out` and exited with `status`. -/
  | exited (pid : Int) (status : Nat) (out : GoString)
  /-- The process ran, wrote `out` and was terminated by the signal `sig`. -/
  | signaled (pid : Int) (sig : GoString) (out : GoString)
  /-- The process ran but waiting for it failed; its status is not known. -/
  | waitFailed (pid : Int) (err : GoString)
  deriving DecidableEq, Repr

/-- Go `ProcessState.String`, the text of the `ExitError` that `Wait` returns. -/
def ProcessState.text (ps : ProcessState) (sig : GoString) : GoString :=
  if ps.exited then go "exit status " ++ go (toString ps.status) else go "signal: " ++ sig

/-- Go `Cmd.Start`: on success the command has a process. -/
def Cmd.Start (c : Cmd) (o : RunOutcome) : Cmd × Option GoString :=
  match o with
  | .startFailed e => (c, some e)
  | .exited pid _ _ => ({ c with proc := .started pid }, none)
  | .signaled pid _ _ => ({ c with proc := .started pid }, none)
  | .waitFailed pid _ => ({ c with proc := .started pid }, none)

/-- Go `Cmd.Wait`: blocks until the process has ended, records its state and
returns an `ExitError` unless it exited with status 0. -/
def Cmd.Wait (c : Cmd) (o : RunOutcome) : Cmd × Option GoString :=
  match c.proc with
  | .notStarted => (c, some (go "exec: not started"))
  | .finished _ _ => (c, some (go "exec: Wait was already called"))
  | .started pid =>
    match o with
    | .startFailed _ => (c, some (go "exec: not started"))
    | .exited _ st _ =>
      let ps : ShellDaemon.ProcessState := { exited := true, status := st }
      ({ c with proc := .finished pid ps }, if ps.Success then none else some (ps.text (go "")))
    | .signaled _ sig _ =>
      let ps : ShellDaemon.ProcessState := { exited := false, status := 0 }
      ({ c with proc := .finished pid ps }, some (ps.text sig))
    | .waitFailed _ e => (c, some e)

/-- Go `Cmd.Run`: `Start`, then `Wait`. -/
def Cmd.Run (c : Cmd) (o : RunOutcome) : Cmd × Option GoString :=
  let s := c.Start o
  match s.2 with
  | some e => (s.1, some e)
  | none => s.1.Wait o

/-- What the process wrote to its standard output and standard error. -/
def RunOutcome.output : RunOutcome → GoString
  | .exited _ _ out => out
  | .signaled _ _ out => out
  | _ => go ""

/-- Go `Cmd.CombinedOutput`: refuses a command whose output is already redirected,
otherwise runs it with both streams captured in one buffer. -/
def Cmd.CombinedOutput (c : Cmd) (o : RunOutcome) : Cmd × GoString × Option GoString :=
  if c.Stdout.isSome then (c, go "", some (go "exec: Stdout already set"))
  else if c.Stderr.isSome then (c, go "", some (go "exec: Stderr already set"))
  else
    let r := c.Run o
    (r.1, o.output, r.2)

/-- Go `Process.Kill`: fails once the process has been waited for. -/
def procKill (p : Proc) : Option GoString :=
  match p with
  | .finished _ _ => some (go "os: process already finished")
  | _ => none

/-! ## Tasks -/

/-- Go `Task`. `start` is the creation time in seconds. -/
structure Task where
  cmd : Cmd
  start : Nat
  is_async : Bool
  tmpFile : GoString
  deriving DecidableEq, Repr

/-- An observable action of the daemon on its environment. -/
inductive Effect where
  /-- The command `args` is handed to `Start`. -/
  | start (args : List GoString)
  /-- The call `Process.Kill()` on process `pid`. -/
  | kill (pid : Int)
  /-- The call `os.Remove(path)`. -/
  | removeFile (path : GoString)
  /-- The send `ch <- result`. -/
  | reply (r : TaskResult)
  /-- The call `cmd.Wait()` on process `pid` has returned. -/
  | waited (pid : Int)
  /-- The send `dbus_ch <- ev`. -/
  | notify (ev : AsyncResult)
  deriving DecidableEq, Repr

/-- Go `Task.ExitCode`. -/
def Task.ExitCode (tk : Task) : Int :=
  match tk.cmd.ProcessState with
  | none => err_code
  | some ps => if ps.Success then 0 else err_code

/-- Result of a call that returns `(value, error)` and may also panic. -/
inductive Res (α : Type) where
  | ok (a : α)
  | err (msg : GoString)
  /-- A nil pointer is dereferenced. -/
  | fault
  deriving Repr

/-- Result `(f, err)` of `ioutil.TempFile`: `file` is the name of the created
file, `none` when the returned `*os.File` is nil. -/
structure TempFile where
  file : Option GoString
  err : Option GoString
  deriving DecidableEq, Repr

/-- Go `newTask`. `tf` is what `ioutil.TempFile` returns when it is called. The
method call `tempFile.Name()` reads through the pointer `tempFile`. -/
def newTask (args : List GoString) (is_async : Bool) (now : Nat) (tf : TempFile) : Res Task :=
  match args with
  | [] => .err (go "need one command at least")
  | name :: rest =>
    let cmd := execCommand name rest
    let task : Task :=
      { cmd := { cmd with Env := cmd.Env ++ [env_path] }, start := now,
        is_async := is_async, tmpFile := go "None" }
    if is_async then
      let task := { task with cmd := { task.cmd with Stdout := tf.file, Stderr := tf.file } }
      match tf.file with
      | none => .fault
      | some nm =>
        let task := { task with tmpFile := nm }
        if tf.err.isSome then .err (go "can't create temp file") else .ok task
    else .ok task

/-- Go `Task.GetTmpFileName`. -/
def Task.GetTmpFileName (tk : Task) : GoString := tk.tmpFile

/-- Go `Task.IsAsync`. -/
def Task.IsAsync (tk : Task) : Bool := tk.is_async

/-- The condition under which `Close` kills the process. -/
def Task.needsKill (tk : Task) : Bool :=
  (!tk.is_async && (match tk.cmd.ProcessState with
    | some ps => !ps.Exited
    | none => false)) || (tk.is_async && tk.cmd.Process.isSome)

/-- Go `Task.Close`: the actions it takes and the error it returns. `os.Remove`
is taken to succeed; its error would only change the returned value. When
`needsKill` holds the command has a process, so `tk.cmd.Process` is not nil. -/
def Task.Close (tk : Task) : List Effect × Option GoString :=
  let rm : List Effect := if tk.is_async then [Effect.removeFile tk.tmpFile] else []
  match (if tk.needsKill then tk.cmd.Process else none) with
  | some pid =>
    match procKill tk.cmd.proc with
    | some e => ([Effect.kill pid], some e)
    | none => (Effect.kill pid :: rm, none)
  | none => (rm, none)

/-- Go `Task.State`. -/
def Task.State (tk : Task) : Int :=
  match tk.cmd.ProcessState with
  | some ps => if ps.Exited then (if !ps.Success then on_error else on_closed) else on_process
  | none => on_process

/-- Go `StateToStr`. -/
def StateToStr (state : Int) : GoString :=
  if state = on_process then go "OnProcess"
  else if state = on_closed then go "OnClosed"
  else if state = on_error then go "OnError"
  else go "NoTask"

/-! ## The task list -/

/-- Go map read `m[k]`. -/
def mapGet (m : List (Int × Task)) (k : Int) : Option Task :=
  match m with
  | [] => none
  | e :: rest => if e.1 = k then some e.2 else mapGet rest k

/-- Go `delete(m, k)`. -/
def mapDelete (m : List (Int × Task)) (k : Int) : List (Int × Task) :=
  m.filter (fun e => !decide (e.1 = k))

/-- Go map write `m[k] = v`. -/
def mapSet (m : List (Int × Task)) (k : Int) (v : Task) : List (Int × Task) :=
  (k, v) :: mapDelete m k

/-- Go `TaskList` (the mutex has no content). -/
structure TaskList where
  counter : Int
  tasks : List (Int × Task)
  deriving DecidableEq, Repr

/-- Go `NewTaskList`. -/
def NewTaskList : TaskList := { counter := 0, tasks := [] }

/-- Go `TaskList.GetTask`. -/
def TaskList.GetTask (tl : TaskList) (key : Int) : Except GoString Task :=
  match mapGet tl.tasks key with
  | none => .error (go "NoTask")
  | some task => .ok task

/-- The format `state_format` applied to its five arguments. -/
def fmtState (key : Int) (state tmpFile : GoString) (pid : Int) (secs : Nat) : GoString :=
  go "\x7b\"key\":" ++ fmtInt key ++ go ", \"state\":\"" ++ state ++ go "\",\"tmpFile\":\"" ++ tmpFile
    ++ go "\", \"pid\":" ++ fmtInt pid ++ go ", \"timelast\":" ++ go (toString secs) ++ go "\x7d"

/-- Go `TaskList.GetState` at time `now`; `none` when `task.cmd.Process` is nil
and `.Pid` is read through it. -/
def TaskList.GetState (tl : TaskList) (key : Int) (now : Nat) : Option GoString :=
  match mapGet tl.tasks key with
  | none => some (fmtState key (StateToStr 0) (go "None") (-1) 0)
  | some task =>
    match task.cmd.Process with
    | none => none
    | some pid =>
      some (fmtState key (StateToStr task.State) task.GetTmpFileName pid (now - task.start))

/-- Go `TaskList.appendTask`: the new list and the id returned. -/
def TaskList.appendTask (tl : TaskList) (task : Task) : TaskList × Int :=
  let c := wrapInt (tl.counter + 1)
  ({ counter := c, tasks := mapSet tl.tasks c task }, c)

/-- Go `TaskList.deleteTask`: the new list, the actions of `Close`, the error. -/
def TaskList.deleteTask (tl : TaskList) (id : Int) : TaskList × List Effect × Option GoString :=
  match mapGet tl.tasks id with
  | none => (tl, [], some (go "NoTask"))
  | some task => ({ tl with tasks := mapDelete tl.tasks id }, task.Close.1, none)

/-- Go `TaskList.RemoveTask`. -/
def TaskList.RemoveTask (tl : TaskList) (id : Int) : TaskList × List Effect :=
  let d := tl.deleteTask id
  (d.1, d.2.1)

/-- The loop `for key := range tl.tasks  tl.deleteTask(key)` over the keys `keys`. -/
def TaskList.deleteKeys (tl : TaskList) (keys : List Int) : TaskList × List Effect :=
  keys.foldl (fun acc key => let d := acc.1.deleteTask key; (d.1, acc.2 ++ d.2.1)) (tl, [])

/-- Go `TaskList.RemoveAllTasks`. -/
def TaskList.RemoveAllTasks (tl : TaskList) : TaskList × List Effect :=
  let r := tl.deleteKeys (tl.tasks.map Prod.fst)
  ({ r.1 with counter := 0 }, r.2)

/-- The task stored under `id` is the task `task` after a change made through
the pointer `*Task` that the map holds. -/
def TaskList.store (tl : TaskList) (id : Int) (task : Task) : TaskList :=
  match mapGet tl.tasks id with
  | none => tl
  | some _ => { tl with tasks := mapSet tl.tasks id task }

/-- Go `TaskList.GetCounter`. -/
def TaskList.GetCounter (tl : TaskList) : Int := tl.counter

/-! ## Execution -/

/-- State of the task list, the `TaskResult` sent to the caller and the actions
taken, after one entry point has run. -/
structure Run where
  tl : TaskList
  result : TaskResult
  trace : List Effect
  deriving DecidableEq, Repr

/-- The zero `TaskResult` that `&TaskResult` allocates. -/
def emptyTaskResult : TaskResult := { Code := 0, Msg := go "" }

/-- The `TempFile` argument of a `newTask` call with `is_async = false`, which
does not create a file. -/
def noTempFile : TempFile := { file := none, err := none }

/-- Go `TaskList.SyncExec`; `o` is what happens to the process. -/
def TaskList.SyncExec (tl : TaskList) (args : List GoString) (now : Nat) (o : RunOutcome) :
    Option Run :=
  let result := emptyTaskResult
  match newTask args false now noTempFile with
  | .fault => none
  | .err e =>
    let result := result.Fill err_code e
    some { tl := tl, result := result, trace := [Effect.reply result] }
  | .ok task =>
    let a := tl.appendTask task
    let id := a.2
    let r := task.cmd.CombinedOutput o
    let task := { task with cmd := r.1 }
    let tl1 := a.1.store id task
    let result :=
      match r.2.2 with
      | none => result.Fill task.ExitCode r.2.1
      | some e => result.Fill task.ExitCode e
    let d := tl1.deleteTask id
    some { tl := d.1, result := result,
           trace := [Effect.start task.cmd.Args] ++ d.2.1 ++ [Effect.reply result] }

/-- Go `TaskList.AsyncExec`; `tf` is what `ioutil.TempFile` returns and `o` what
happens to the process. -/
def TaskList.AsyncExec (tl : TaskList) (args : List GoString) (now : Nat) (tf : TempFile)
    (o : RunOutcome) : Option Run :=
  let result := emptyTaskResult
  match newTask args true now tf with
  | .fault => none
  | .err e =>
    let result := result.Fill err_code e
    some { tl := tl, result := result, trace := [Effect.reply result] }
  | .ok task =>
    let a := tl.appendTask task
    let key := a.2
    let s := task.cmd.Start o
    let task := { task with cmd := s.1 }
    let tl1 := a.1.store key task
    match s.2 with
    | some e =>
      let d := tl1.deleteTask key
      let result := result.Fill err_code e
      some { tl := d.1, result := result,
             trace := [Effect.start task.cmd.Args] ++ d.2.1 ++ [Effect.reply result] }
    | none =>
      let result := result.Fill key (StateToStr task.State)
      let w := task.cmd.Wait o
      let task := { task with cmd := w.1 }
      let tl2 := tl1.store key task
      let ev : AsyncResult := { Key := key, Code := task.State, Msg := StateToStr task.State }
      some { tl := tl2, result := result,
             trace := [Effect.start task.cmd.Args, Effect.reply result] ++
               (match s.1.Process with
                | some pid => [Effect.waited pid]
                | none => []) ++ [Effect.notify ev] }

/-- The task after the goroutine of `AsyncExec` that waits for its process has
recorded the outcome `during` (`none`: that goroutine has recorded nothing). The
change is made through the pointer `*Task` that the map also holds. -/
def Task.waited (tk : Task) (during : Option RunOutcome) : Task :=
  match during with
  | none => tk
  | some o => { tk with cmd := (tk.cmd.Wait o).1 }

/-- Go `TaskList.GetAsyncTaskOutput`; `tail` is what happens to the `tail` process
and `during` what the goroutine waiting for the task's own process records
while the call blocks in `CombinedOutput`. The calls `task.State()` that follow
read the task as it is then. -/
def TaskList.GetAsyncTaskOutput (tl : TaskList) (key : Int) (lines : Int) (now : Nat)
    (tail : RunOutcome) (during : Option RunOutcome) : Option Run :=
  let result := emptyTaskResult
  let sentinel := result.Fill on_none (StateToStr on_none)
  match mapGet tl.tasks key with
  | none => some { tl := tl, result := sentinel, trace := [Effect.reply sentinel] }
  | some task =>
    if !task.IsAsync || lines < 1 then
      some { tl := tl, result := sentinel, trace := [Effect.reply sentinel] }
    else
      let script := go "tail -n " ++ fmtInt lines ++ go " " ++ task.GetTmpFileName
      match newTask (stringsFields script) false now noTempFile with
      | .fault => none
      | .err e =>
        let result := result.Fill err_code e
        some { tl := tl, result := result, trace := [Effect.reply result] }
      | .ok taskTmp =>
        let r := taskTmp.cmd.CombinedOutput tail
        let task := task.waited during
        let tl :=
          match during with
          | none => tl
          | some _ => tl.store key task
        match r.2.2 with
        | some e =>
          let result := result.Fill err_code e
          some { tl := tl, result := result,
                 trace := [Effect.start taskTmp.cmd.Args, Effect.reply result] }
        | none =>
          let result := result.Fill task.State r.2.1
          if task.State = on_closed || task.State = on_error then
            let d := tl.RemoveTask key
            some { tl := d.1, result := result,
                   trace := [Effect.start taskTmp.cmd.Args] ++ d.2 ++ [Effect.reply result] }
          else
            some { tl := tl, result := result,
                   trace := [Effect.start taskTmp.cmd.Args, Effect.reply result] }

/-! ## The D-Bus entry points (`shell_server.go`) -/

/-- Go `EmptyResult`. -/
def EmptyResult : TaskResult := { Code := 0, Msg := go "" }

/-- Go `DbusServer.GetTaskState` on the server's task list. -/
def GetTaskState (tl : TaskList) (key : Int) (now : Nat) : Option TaskResult :=
  match tl.GetTask key with
  | .error _ => some EmptyResult
  | .ok _ => (tl.GetState key now).map (fun s => { Code := key, Msg := s })

/-- Go `DbusServer.ForceCloseTask` on the server's task list: the list after the
call, the actions taken, the result returned. -/
def ForceCloseTask (tl : TaskList) (key : Int) (now : Nat) :
    TaskList × List Effect × Option TaskResult :=
  let d := tl.RemoveTask key
  (d.1, d.2, GetTaskState d.1 key now)

/-! ## Sequences of registry operations -/

/-- One operation on the registry. -/
inductive RegOp where
  | register (task : Task)
  | remove (id : Int)
  | removeAll
  deriving DecidableEq, Repr

/-- The task list after one operation, and the id a `register` returns. -/
def stepOp (tl : TaskList) (op : RegOp) : TaskList × Option Int :=
  match op with
  | .register task => let a := tl.appendTask task; (a.1, some a.2)
  | .remove id => ((tl.RemoveTask id).1, none)
  | .removeAll => (tl.RemoveAllTasks.1, none)

/-- The task list after the operations `ops`, in order. -/
def runOps (tl : TaskList) (ops : List RegOp) : TaskList :=
  ops.foldl (fun t op => (stepOp t op).1) tl

/-- The ids returned by the `register` operations of `ops`, in order. -/
def returnedIds (tl : TaskList) (ops : List RegOp) : List Int :=
  match ops with
  | [] => []
  | op :: rest =>
    let s := stepOp tl op
    match s.2 with
    | some id => id :: returnedIds s.1 rest
    | none => returnedIds s.1 rest

/-- Every registered id lies in `1..counter`. -/
def TaskList.WF (tl : TaskList) : Prop :=
  ∀ e ∈ tl.tasks, 1 ≤ e.1 ∧ e.1 ≤ tl.counter

instance (tl : TaskList) : Decidable tl.WF :=
  inferInstanceAs (Decidable (∀ e ∈ tl.tasks, 1 ≤ e.1 ∧ e.1 ≤ tl.counter))

/-- The invariant of a task list reached by at most `n` operations. -/
def Inv (tl : TaskList) (n : Int) : Prop := tl.WF ∧ 0 ≤ tl.counter ∧ tl.counter ≤ n

/-- The ids registered in the task list. -/
def TaskList.keys (tl : TaskList) : List Int := tl.tasks.map Prod.fst

/-! ## Sample values -/

/-- An async task whose process `77` is running. -/
def runningTask : Task :=
  { cmd := { Args := [go "sleep", go "100"], Env := [env_path], Stdout := some (go "/tmp/fydeshell42"),
             Stderr := some (go "/tmp/fydeshell42"), proc := .started 77 },
    start := 0, is_async := true, tmpFile := go "/tmp/fydeshell42" }

/-- The task `runningTask` after its process has exited with status 0 and has
been waited for. -/
def closedTask : Task :=
  { runningTask with
    cmd := { runningTask.cmd with proc := .finished 77 { exited := true, status := 0 } } }

/-- The task `runningTask` registered but not yet started. -/
def unstartedTask : Task :=
  { runningTask with cmd := { runningTask.cmd with proc := .notStarted } }

/-- A sync task whose process is running. -/
def syncTask : Task :=
  { cmd := { Args := [go "ls"], Env := [env_path], Stdout := none, Stderr := none,
             proc := .started 78 },
    start := 0, is_async := false, tmpFile := go "None" }

/-- A task list holding `closedTask` under id 1 and `runningTask` under id 2. -/
def sampleList : TaskList := { counter := 2, tasks := [(2, runningTask), (1, closedTask)] }

/-- A sequence of registry operations. -/
def sampleOps : List RegOp :=
  [.register runningTask, .register closedTask, .remove 1, .register runningTask]

/-! ## UTF-8 -/

theorem decodeRune_cases (b0 : Nat) (rest : GoString) :
    (b0 < 0x80 ∧ decodeRune (b0 :: rest) = (b0, 1)) ∨
    (0x80 ≤ b0 ∧ decodeRune (b0 :: rest) = (RuneError, 1)) ∨
    (∃ b1 t, rest = b1 :: t ∧ 0xC2 ≤ b0 ∧ b0 < 0xE0 ∧ 0x80 ≤ b1 ∧ b1 ≤ 0xBF ∧
      decodeRune (b0 :: rest) = ((b0 % 32) * 64 + b1 % 64, 2)) ∨
    (∃ b1 b2 t, rest = b1 :: b2 :: t ∧ 0xE0 ≤ b0 ∧ b0 < 0xF0 ∧
      (b0 = 0xE0 → 0xA0 ≤ b1) ∧ (b0 = 0xED → b1 ≤ 0x9F) ∧ 0x80 ≤ b1 ∧ b1 ≤ 0xBF ∧
      0x80 ≤ b2 ∧ b2 ≤ 0xBF ∧
      decodeRune (b0 :: rest) = ((b0 % 16) * 4096 + (b1 % 64) * 64 + b2 % 64, 3)) ∨
    (∃ b1 b2 b3 t, rest = b1 :: b2 :: b3 :: t ∧ 0xF0 ≤ b0 ∧ b0 ≤ 0xF4 ∧
      (b0 = 0xF0 → 0x90 ≤ b1) ∧ (b0 = 0xF4 → b1 ≤ 0x8F) ∧ 0x80 ≤ b1 ∧ b1 ≤ 0xBF ∧
      0x80 ≤ b2 ∧ b2 ≤ 0xBF ∧ 0x80 ≤ b3 ∧ b3 ≤ 0xBF ∧
      decodeRune (b0 :: rest) =
        ((b0 % 8) * 262144 + (b1 % 64) * 4096 + (b2 % 64) * 64 + b3 % 64, 4)) := by
  by_cases h1 : b0 < 0x80
  · left
    exact ⟨h1, by simp [decodeRune, h1]⟩
  by_cases h2 : b0 < 0xC2 ∨ 0xF4 < b0
  · right; left
    exact ⟨by omega, by simp [decodeRune, h1, h2]⟩
  by_cases h3 : b0 < 0xE0
  · have e1 : b0 ≠ 0xE0 := by omega
    have e2 : b0 ≠ 0xF0 := by omega
    have e3 : b0 ≠ 0xED := by omega
    have e4 : b0 ≠ 0xF4 := by omega
    rcases rest with _ | ⟨b1, t⟩
    · right; left
      exact ⟨by omega, by simp [decodeRune, h1, h2, h3]⟩
    · by_cases hc : b1 < 0x80 ∨ 0xBF < b1
      · right; left
        exact ⟨by omega, by simp [decodeRune, h1, h2, h3, e1, e2, e3, e4, hc]⟩
      · right; right; left
        exact ⟨b1, t, rfl, by omega, h3, by omega, by omega,
          by simp [decodeRune, h1, h2, h3, e1, e2, e3, e4, hc]⟩
  by_cases h4 : b0 < 0xF0
  · have e2 : b0 ≠ 0xF0 := by omega
    have e4 : b0 ≠ 0xF4 := by omega
    rcases rest with _ | ⟨b1, _ | ⟨b2, t⟩⟩
    · right; left
      exact ⟨by omega, by simp [decodeRune, h1, h2, h3, h4]⟩
    · right; left
      exact ⟨by omega, by simp [decodeRune, h1, h2, h3, h4]⟩
    · by_cases hc : b1 < (if b0 = 0xE0 then 0xA0 else 0x80) ∨
          (if b0 = 0xED then 0x9F else 0xBF) < b1
      · right; left
        exact ⟨by omega, by simp [decodeRune, h1, h2, h3, h4, e2, e4, hc]⟩
      · by_cases hc2 : b2 < 0x80 ∨ 0xBF < b2
        · right; left
          exact ⟨by omega, by simp [decodeRune, h1, h2, h3, h4, e2, e4, hc, hc2]⟩
        · right; right; right; left
          refine ⟨b1, b2, t, rfl, by omega, h4, ?_, ?_, ?_, ?_, by omega, by omega,
            by simp [decodeRune, h1, h2, h3, h4, e2, e4, hc, hc2]⟩
          · intro e; simp only [e, if_true] at hc; omega
          · intro e; simp only [e, if_true] at hc; omega
          · split_ifs at hc <;> omega
          · split_ifs at hc <;> omega
  · have e1 : b0 ≠ 0xE0 := by omega
    have e3 : b0 ≠ 0xED := by omega
    rcases rest with _ | ⟨b1, _ | ⟨b2, _ | ⟨b3, t⟩⟩⟩
    · right; left
      exact ⟨by omega, by simp [decodeRune, h1, h2, h3, h4]⟩
    · right; left
      exact ⟨by omega, by simp [decodeRune, h1, h2, h3, h4]⟩
    · right; left
      exact ⟨by omega, by simp [decodeRune, h1, h2, h3, h4]⟩
    · by_cases hc : b1 < (if b0 = 0xF0 then 0x90 else 0x80) ∨
          (if b0 = 0xF4 then 0x8F else 0xBF) < b1
      · right; left
        exact ⟨by omega, by simp [decodeRune, h1, h2, h3, h4, e1, e3, hc]⟩
      · by_cases hc2 : b2 < 0x80 ∨ 0xBF < b2
        · right; left
          exact ⟨by omega, by simp [decodeRune, h1, h2, h3, h4, e1, e3, hc, hc2]⟩
        · by_cases hc3 : b3 < 0x80 ∨ 0xBF < b3
          · right; left
            exact ⟨by omega, by simp [decodeRune, h1, h2, h3, h4, e1, e3, hc, hc2, hc3]⟩
          · right; right; right; right
            refine ⟨b1, b2, b3, t, rfl, by omega, by omega, ?_, ?_, ?_, ?_, by omega, by omega,
              by omega, by omega,
              by simp [decodeRune, h1, h2, h3, h4, e1, e3, hc, hc2, hc3]⟩
            · intro e; simp only [e, if_true] at hc; omega
            · intro e; simp only [e, if_true] at hc; omega
            · split_ifs at hc <;> omega
            · split_ifs at hc <;> omega

theorem decodeRune_width (b0 : Nat) (rest : GoString) :
    1 ≤ (decodeRune (b0 :: rest)).2 ∧ (decodeRune (b0 :: rest)).2 ≤ (b0 :: rest).length := by
  rcases decodeRune_cases b0 rest with ⟨_, h⟩ | ⟨_, h⟩ | ⟨b1, t, hr, _, _, _, _, h⟩ |
    ⟨b1, b2, t, hr, _, _, _, _, _, _, _, _, h⟩ |
    ⟨b1, b2, b3, t, hr, _, _, _, _, _, _, _, _, _, _, h⟩ <;>
  · rw [h]
    simp [*]

theorem decodeRune_scalar (b0 : Nat) (rest : GoString) :
    (decodeRune (b0 :: rest)).1 < 0xD800 ∨
      (0xE000 ≤ (decodeRune (b0 :: rest)).1 ∧ (decodeRune (b0 :: rest)).1 ≤ 0x10FFFF) := by
  rcases decodeRune_cases b0 rest with ⟨_, h⟩ | ⟨_, h⟩ | ⟨b1, t, hr, _, _, _, _, h⟩ |
    ⟨b1, b2, t, hr, _, _, _, _, _, _, _, _, h⟩ |
    ⟨b1, b2, b3, t, hr, _, _, _, _, _, _, _, _, _, _, h⟩ <;>
  · rw [h]
    simp only [RuneError]
    omega

theorem encodeRune_decodeRune (b0 : Nat) (rest : GoString)
    (hv : ¬ ((decodeRune (b0 :: rest)).1 = RuneError ∧ (decodeRune (b0 :: rest)).2 = 1)) :
    encodeRune (decodeRune (b0 :: rest)).1 = (b0 :: rest).take (decodeRune (b0 :: rest)).2 := by
  rcases decodeRune_cases b0 rest with ⟨_, h⟩ | ⟨_, h⟩ | ⟨b1, t, hr, _, _, _, _, h⟩ |
    ⟨b1, b2, t, hr, _, _, _, _, _, _, _, _, h⟩ |
    ⟨b1, b2, b3, t, hr, _, _, _, _, _, _, _, _, _, _, h⟩
  · rw [h]
    have : b0 ≤ 0x7F := by omega
    simp [encodeRune, this]
  · rw [h] at hv
    exact absurd ⟨rfl, rfl⟩ hv
  · rw [h, hr]
    have a1 : ¬ (b0 % 32 * 64 + b1 % 64 ≤ 0x7F) := by omega
    have a2 : b0 % 32 * 64 + b1 % 64 ≤ 0x7FF := by omega
    simp only [encodeRune, a1, a2, if_true, if_false, List.take_succ_cons, List.take_zero]
    congr 1
    · omega
    · congr 1
      omega
  · rw [h, hr]
    have a1 : ¬ (b0 % 16 * 4096 + b1 % 64 * 64 + b2 % 64 ≤ 0x7F) := by omega
    have a2 : ¬ (b0 % 16 * 4096 + b1 % 64 * 64 + b2 % 64 ≤ 0x7FF) := by omega
    have a3 : ¬ (0x10FFFF < b0 % 16 * 4096 + b1 % 64 * 64 + b2 % 64 ∨
        (0xD800 ≤ b0 % 16 * 4096 + b1 % 64 * 64 + b2 % 64 ∧
          b0 % 16 * 4096 + b1 % 64 * 64 + b2 % 64 ≤ 0xDFFF)) := by omega
    have a4 : b0 % 16 * 4096 + b1 % 64 * 64 + b2 % 64 ≤ 0xFFFF := by omega
    simp only [encodeRune, a1, a2, a3, a4, if_true, if_false, List.take_succ_cons, List.take_zero]
    congr 1
    · omega
    · congr 1
      · omega
      · congr 1
        omega
  · rw [h, hr]
    have a1 : ¬ (b0 % 8 * 262144 + b1 % 64 * 4096 + b2 % 64 * 64 + b3 % 64 ≤ 0x7F) := by omega
    have a2 : ¬ (b0 % 8 * 262144 + b1 % 64 * 4096 + b2 % 64 * 64 + b3 % 64 ≤ 0x7FF) := by omega
    have a3 : ¬ (0x10FFFF < b0 % 8 * 262144 + b1 % 64 * 4096 + b2 % 64 * 64 + b3 % 64 ∨
        (0xD800 ≤ b0 % 8 * 262144 + b1 % 64 * 4096 + b2 % 64 * 64 + b3 % 64 ∧
          b0 % 8 * 262144 + b1 % 64 * 4096 + b2 % 64 * 64 + b3 % 64 ≤ 0xDFFF)) := by omega
    have a4 : ¬ (b0 % 8 * 262144 + b1 % 64 * 4096 + b2 % 64 * 64 + b3 % 64 ≤ 0xFFFF) := by omega
    simp only [encodeRune, a1, a2, a3, a4, if_true, if_false, List.take_succ_cons, List.take_zero]
    congr 1
    · omega
    · congr 1
      · omega
      · congr 1
        · omega
        · congr 1
          omega

theorem encodeRune_no_zero (r : Nat) (h : r ≠ 0) : 0 ∉ encodeRune r := by
  unfold encodeRune
  split_ifs <;> simp <;> omega

theorem encodeRune_ne_nil (r : Nat) : encodeRune r ≠ [] := by
  unfold encodeRune
  split_ifs <;> simp

theorem decodeRune_two (b0 b1 : Nat) (rest : GoString) (h0 : 0xC2 ≤ b0) (h0' : b0 < 0xE0)
    (h1 : 0x80 ≤ b1) (h1' : b1 ≤ 0xBF) :
    decodeRune (b0 :: b1 :: rest) = ((b0 % 32) * 64 + b1 % 64, 2) := by
  have f1 : ¬ b0 < 0x80 := by omega
  have f2 : ¬ (b0 < 0xC2 ∨ 0xF4 < b0) := by omega
  have e1 : b0 ≠ 0xE0 := by omega
  have e2 : b0 ≠ 0xF0 := by omega
  have e3 : b0 ≠ 0xED := by omega
  have e4 : b0 ≠ 0xF4 := by omega
  have hc : ¬ (b1 < 0x80 ∨ 0xBF < b1) := by omega
  simp [decodeRune, f1, f2, h0', e1, e2, e3, e4, hc]

theorem decodeRune_three (b0 b1 b2 : Nat) (rest : GoString) (h0 : 0xE0 ≤ b0) (h0' : b0 < 0xF0)
    (ha : b0 = 0xE0 → 0xA0 ≤ b1) (hb : b0 = 0xED → b1 ≤ 0x9F)
    (h1 : 0x80 ≤ b1) (h1' : b1 ≤ 0xBF) (h2 : 0x80 ≤ b2) (h2' : b2 ≤ 0xBF) :
    decodeRune (b0 :: b1 :: b2 :: rest) = ((b0 % 16) * 4096 + (b1 % 64) * 64 + b2 % 64, 3) := by
  have f1 : ¬ b0 < 0x80 := by omega
  have f2 : ¬ (b0 < 0xC2 ∨ 0xF4 < b0) := by omega
  have f3 : ¬ b0 < 0xE0 := by omega
  have e2 : b0 ≠ 0xF0 := by omega
  have e4 : b0 ≠ 0xF4 := by omega
  have hc : ¬ (b1 < (if b0 = 0xE0 then 0xA0 else 0x80) ∨
      (if b0 = 0xED then 0x9F else 0xBF) < b1) := by
    split_ifs <;> omega
  have hc2 : ¬ (b2 < 0x80 ∨ 0xBF < b2) := by omega
  simp [decodeRune, f1, f2, f3, h0', e2, e4, hc, hc2]

theorem decodeRune_four (b0 b1 b2 b3 : Nat) (rest : GoString) (h0 : 0xF0 ≤ b0) (h0' : b0 ≤ 0xF4)
    (ha : b0 = 0xF0 → 0x90 ≤ b1) (hb : b0 = 0xF4 → b1 ≤ 0x8F)
    (h1 : 0x80 ≤ b1) (h1' : b1 ≤ 0xBF) (h2 : 0x80 ≤ b2) (h2' : b2 ≤ 0xBF)
    (h3 : 0x80 ≤ b3) (h3' : b3 ≤ 0xBF) :
    decodeRune (b0 :: b1 :: b2 :: b3 :: rest) =
      ((b0 % 8) * 262144 + (b1 % 64) * 4096 + (b2 % 64) * 64 + b3 % 64, 4) := by
  have f1 : ¬ b0 < 0x80 := by omega
  have f2 : ¬ (b0 < 0xC2 ∨ 0xF4 < b0) := by omega
  have f3 : ¬ b0 < 0xE0 := by omega
  have f4 : ¬ b0 < 0xF0 := by omega
  have e1 : b0 ≠ 0xE0 := by omega
  have e3 : b0 ≠ 0xED := by omega
  have hc : ¬ (b1 < (if b0 = 0xF0 then 0x90 else 0x80) ∨
      (if b0 = 0xF4 then 0x8F else 0xBF) < b1) := by
    split_ifs <;> omega
  have hc2 : ¬ (b2 < 0x80 ∨ 0xBF < b2) := by omega
  have hc3 : ¬ (b3 < 0x80 ∨ 0xBF < b3) := by omega
  simp [decodeRune, f1, f2, f3, f4, e1, e3, hc, hc2, hc3]

theorem decodeRune_encodeRune (r : Nat) (rest : GoString)
    (hs : r < 0xD800 ∨ (0xE000 ≤ r ∧ r ≤ 0x10FFFF)) :
    ∃ b t, encodeRune r ++ rest = b :: t ∧
      decodeRune (b :: t) = (r, (encodeRune r).length) := by
  unfold encodeRune
  by_cases h1 : r ≤ 0x7F
  · refine ⟨r, rest, by simp [h1], ?_⟩
    have : r < 0x80 := by omega
    simp [decodeRune, h1, this]
  by_cases h2 : r ≤ 0x7FF
  · refine ⟨0xC0 + r / 64, (0x80 + r % 64) :: rest, by simp [h1, h2], ?_⟩
    rw [decodeRune_two _ _ _ (by omega) (by omega) (by omega) (by omega)]
    simp only [h1, h2, if_true, if_false, List.length_cons, List.length_nil, Prod.mk.injEq]
    refine ⟨?_, trivial⟩
    omega
  have h3 : ¬ (0x10FFFF < r ∨ (0xD800 ≤ r ∧ r ≤ 0xDFFF)) := by omega
  by_cases h4 : r ≤ 0xFFFF
  · refine ⟨0xE0 + r / 4096, (0x80 + r / 64 % 64) :: (0x80 + r % 64) :: rest,
      by simp [h1, h2, h3, h4], ?_⟩
    rw [decodeRune_three _ _ _ _ (by omega) (by omega) (by omega) (by omega) (by omega)
      (by omega) (by omega) (by omega)]
    simp only [h1, h2, h3, h4, if_true, if_false, List.length_cons, List.length_nil,
      Prod.mk.injEq]
    refine ⟨?_, trivial⟩
    omega
  · refine ⟨0xF0 + r / 262144,
      (0x80 + r / 4096 % 64) :: (0x80 + r / 64 % 64) :: (0x80 + r % 64) :: rest,
      by simp [h1, h2, h3, h4], ?_⟩
    rw [decodeRune_four _ _ _ _ _ (by omega) (by omega) (by omega) (by omega) (by omega)
      (by omega) (by omega) (by omega) (by omega) (by omega)]
    simp only [h1, h2, h3, h4, if_true, if_false, List.length_cons, List.length_nil,
      Prod.mk.injEq]
    refine ⟨?_, trivial⟩
    omega

/-! ## Sanitizing messages -/

theorem fill_out (c : Nat) :
    (if 0 ≤ fillMapping c then encodeRune (fillMapping c).toNat else []) =
      if c = 0 then [] else encodeRune c := by
  unfold fillMapping
  by_cases h : c = 0
  · simp [h]
  · have : (0 : Int) ≤ (c : Int) := Int.ofNat_nonneg c
    simp [h]

theorem mapLoop_fill_zero (rest : GoString) (b : Nat) :
    mapLoop fillMapping 0 (b :: rest) =
      (if (decodeRune (b :: rest)).1 = 0 then [] else encodeRune (decodeRune (b :: rest)).1) ++
        mapLoop fillMapping ((decodeRune (b :: rest)).2 - 1) rest := by
  rw [← fill_out]
  rfl

theorem mapLoop_no_zero (s : GoString) (k : Nat) : 0 ∉ mapLoop fillMapping k s := by
  induction s generalizing k with
  | nil => cases k <;> simp [mapLoop]
  | cons b rest ih =>
    cases k with
    | succ k => exact ih k
    | zero =>
      rw [mapLoop_fill_zero, List.mem_append]
      rintro (h | h)
      · by_cases h0 : (decodeRune (b :: rest)).1 = 0
        · simp [h0] at h
        · rw [if_neg h0] at h
          exact encodeRune_no_zero _ h0 h
      · exact ih _ h

theorem mapLoop_runes (s : GoString) (k : Nat) :
    mapLoop fillMapping k s = encodeRunes ((runesLoop k s).filter (fun r => decide (r ≠ 0))) := by
  induction s generalizing k with
  | nil => cases k <;> rfl
  | cons b rest ih =>
    cases k with
    | succ k => exact ih k
    | zero =>
      have hr : runesLoop 0 (b :: rest) =
          (decodeRune (b :: rest)).1 :: runesLoop ((decodeRune (b :: rest)).2 - 1) rest := rfl
      rw [mapLoop_fill_zero, ih, hr, List.filter_cons]
      by_cases h0 : (decodeRune (b :: rest)).1 = 0
      · simp [h0]
      · simp [h0, encodeRunes]

theorem filter_no_zero (l : GoString) (h : 0 ∉ l) : l.filter (fun b => decide (b ≠ 0)) = l := by
  rw [List.filter_eq_self]
  intro a ha
  have : a ≠ 0 := fun e => h (e ▸ ha)
  simp [this]

theorem drop_cons_pred (b : Nat) (rest : GoString) (w : Nat) (hw : 1 ≤ w) :
    (b :: rest).drop w = rest.drop (w - 1) := by
  cases w with
  | zero => omega
  | succ n => simp

theorem mapLoop_valid (s : GoString) (k : Nat) (hv : validLoop k s = true) :
    mapLoop fillMapping k s = (s.drop k).filter (fun b => decide (b ≠ 0)) := by
  induction s generalizing k with
  | nil => cases k <;> simp [mapLoop]
  | cons b rest ih =>
    cases k with
    | succ k =>
      have : validLoop k rest = true := hv
      simpa [mapLoop] using ih k this
    | zero =>
      unfold validLoop at hv
      rw [Bool.and_eq_true] at hv
      obtain ⟨hv1, hv2⟩ := hv
      have hv1' : ¬ ((decodeRune (b :: rest)).1 = RuneError ∧ (decodeRune (b :: rest)).2 = 1) := by
        rintro ⟨e1, e2⟩
        rw [e1, e2] at hv1
        simp at hv1
      have henc := encodeRune_decodeRune b rest hv1'
      have hw := (decodeRune_width b rest).1
      rw [mapLoop_fill_zero, ih _ hv2, List.drop_zero]
      conv => rhs; rw [← List.take_append_drop (decodeRune (b :: rest)).2 (b :: rest)]
      rw [List.filter_append, drop_cons_pred b rest _ hw, ← henc]
      congr 1
      by_cases h0 : (decodeRune (b :: rest)).1 = 0
      · rw [if_pos h0, h0]
        decide
      · rw [if_neg h0, filter_no_zero _ (encodeRune_no_zero _ h0)]

theorem validLoop_skip (s : GoString) (k : Nat) : validLoop k s = validLoop 0 (s.drop k) := by
  induction s generalizing k with
  | nil => cases k <;> rfl
  | cons b rest ih =>
    cases k with
    | succ k => simpa [validLoop] using ih k
    | zero => rfl

theorem validLoop_encode_append (r : Nat) (m : GoString)
    (hs : r < 0xD800 ∨ (0xE000 ≤ r ∧ r ≤ 0x10FFFF)) (hm : validLoop 0 m = true) :
    validLoop 0 (encodeRune r ++ m) = true := by
  obtain ⟨b, t, hbt, hd⟩ := decodeRune_encodeRune r m hs
  rw [hbt]
  unfold validLoop
  rw [hd, validLoop_skip]
  have hlen : 1 ≤ (encodeRune r).length := by
    have := encodeRune_ne_nil r
    cases h : encodeRune r with
    | nil => exact absurd h this
    | cons a as => simp
  have hdrop : t.drop ((encodeRune r).length - 1) = m := by
    rw [← drop_cons_pred b t _ hlen, ← hbt, List.drop_left]
  simp only [hdrop, hm, Bool.and_true, Bool.not_eq_true', Bool.and_eq_false_iff,
    beq_eq_false_iff_ne, ne_eq]
  by_cases h1 : r = RuneError
  · right
    rw [h1]
    decide
  · left
    exact h1

theorem mapLoop_output_valid (s : GoString) (k : Nat) :
    validLoop 0 (mapLoop fillMapping k s) = true := by
  induction s generalizing k with
  | nil => cases k <;> rfl
  | cons b rest ih =>
    cases k with
    | succ k => exact ih k
    | zero =>
      rw [mapLoop_fill_zero]
      by_cases h0 : (decodeRune (b :: rest)).1 = 0
      · rw [if_pos h0, List.nil_append]
        exact ih _
      · rw [if_neg h0]
        exact validLoop_encode_append _ _ (decodeRune_scalar b rest) (ih _)

theorem stringsMap_fill_idem (s : GoString) :
    stringsMap fillMapping (stringsMap fillMapping s) = stringsMap fillMapping s := by
  unfold stringsMap
  rw [mapLoop_valid _ 0 (mapLoop_output_valid s 0), List.drop_zero,
    filter_no_zero _ (mapLoop_no_zero s 0)]

/-! ## The counter and the map -/

theorem wrapInt_succ (c : Int) (h0 : 0 ≤ c) (h1 : c < maxInt) : wrapInt (c + 1) = c + 1 := by
  unfold wrapInt
  unfold maxInt at h1
  omega

theorem mapGet_eq_none_iff (m : List (Int × Task)) (k : Int) :
    mapGet m k = none ↔ k ∉ m.map Prod.fst := by
  induction m with
  | nil => simp [mapGet]
  | cons e rest ih =>
    unfold mapGet
    by_cases h : e.1 = k
    · simp [h]
    · have h2 : ¬ k = e.1 := fun x => h x.symm
      simp only [h, if_false, ih, List.map_cons, List.mem_cons, h2, false_or]

theorem mapGet_mapDelete_self (m : List (Int × Task)) (k : Int) :
    mapGet (mapDelete m k) k = none := by
  rw [mapGet_eq_none_iff]
  simp [mapDelete]

theorem mapGet_mapDelete_ne (m : List (Int × Task)) (k k2 : Int) (h : k2 ≠ k) :
    mapGet (mapDelete m k) k2 = mapGet m k2 := by
  induction m with
  | nil => rfl
  | cons e rest ih =>
    unfold mapDelete at ih
    unfold mapDelete
    rw [List.filter_cons]
    by_cases he : e.1 = k
    · have h3 : e.1 ≠ k2 := fun x => h (x.symm.trans he)
      simp only [he, decide_True, Bool.not_true, if_false, Bool.false_eq_true]
      rw [ih]
      conv => rhs; unfold mapGet
      rw [if_neg h3]
    · simp only [he, decide_False, Bool.not_false, if_true]
      unfold mapGet
      by_cases hk : e.1 = k2
      · simp only [hk, if_true]
      · simp only [hk, if_false]
        exact ih

theorem mapDelete_of_not_mem (m : List (Int × Task)) (k : Int) (h : k ∉ m.map Prod.fst) :
    mapDelete m k = m := by
  unfold mapDelete
  rw [List.filter_eq_self]
  intro e he
  have hk : e.1 ≠ k := fun hk => h (List.mem_map.2 ⟨e, he, hk⟩)
  simp [hk]

theorem mapDelete_mapSet (m : List (Int × Task)) (k : Int) (v : Task) :
    mapDelete (mapSet m k v) k = mapDelete m k := by
  simp [mapSet, mapDelete, List.filter_cons, List.filter_filter]

theorem mapGet_mapSet_self (m : List (Int × Task)) (k : Int) (v : Task) :
    mapGet (mapSet m k v) k = some v := by
  simp [mapSet, mapGet]

theorem mem_mapDelete (m : List (Int × Task)) (k : Int) (e : Int × Task) :
    e ∈ mapDelete m k ↔ e ∈ m ∧ e.1 ≠ k := by
  simp [mapDelete]

/-! ## Registry operations -/

theorem deleteTask_counter (tl : TaskList) (id : Int) :
    (tl.deleteTask id).1.counter = tl.counter := by
  unfold TaskList.deleteTask
  cases mapGet tl.tasks id <;> rfl

theorem deleteTask_tasks (tl : TaskList) (id : Int) :
    (tl.deleteTask id).1.tasks = mapDelete tl.tasks id := by
  unfold TaskList.deleteTask
  cases h : mapGet tl.tasks id with
  | none =>
    exact (mapDelete_of_not_mem _ _ ((mapGet_eq_none_iff _ _).1 h)).symm
  | some t => rfl

theorem deleteKeys_counter (keys : List Int) (tl : TaskList) :
    (tl.deleteKeys keys).1.counter = tl.counter := by
  unfold TaskList.deleteKeys
  suffices h : ∀ (acc : TaskList × List Effect),
      (keys.foldl (fun acc key => let d := acc.1.deleteTask key; (d.1, acc.2 ++ d.2.1)) acc).1.counter
        = acc.1.counter from h (tl, [])
  induction keys with
  | nil => intro acc; rfl
  | cons k ks ih =>
    intro acc
    rw [List.foldl_cons, ih]
    exact deleteTask_counter _ _

theorem deleteKeys_tasks (keys : List Int) (tl : TaskList) :
    (tl.deleteKeys keys).1.tasks = tl.tasks.filter (fun e => !decide (e.1 ∈ keys)) := by
  unfold TaskList.deleteKeys
  suffices h : ∀ (acc : TaskList × List Effect),
      (keys.foldl (fun acc key => let d := acc.1.deleteTask key; (d.1, acc.2 ++ d.2.1)) acc).1.tasks
        = acc.1.tasks.filter (fun e => !decide (e.1 ∈ keys)) from h (tl, [])
  induction keys with
  | nil => intro acc; simp
  | cons k ks ih =>
    intro acc
    rw [List.foldl_cons, ih]
    simp only [deleteTask_tasks, mapDelete, List.filter_filter]
    apply List.filter_congr
    intro e _
    by_cases h1 : e.1 = k <;> by_cases h2 : e.1 ∈ ks <;> simp [h1, h2]

theorem RemoveAllTasks_tasks (tl : TaskList) : tl.RemoveAllTasks.1.tasks = [] := by
  unfold TaskList.RemoveAllTasks
  simp only [deleteKeys_tasks]
  rw [List.filter_eq_nil_iff]
  intro e he
  have : e.1 ∈ tl.tasks.map Prod.fst := List.mem_map.2 ⟨e, he, rfl⟩
  simp [this]

theorem RemoveAllTasks_counter (tl : TaskList) : tl.RemoveAllTasks.1.counter = 0 := rfl

theorem WF_not_mem_succ (tl : TaskList) (h : tl.WF) (hr : tl.counter ≤ maxInt) :
    wrapInt (tl.counter + 1) ∉ tl.keys := by
  intro hm
  obtain ⟨e, he, hk⟩ := List.mem_map.1 hm
  have := h e he
  unfold wrapInt at hk
  unfold maxInt at hr
  omega

theorem appendTask_WF (tl : TaskList) (task : Task) (h : tl.WF) (h0 : 0 ≤ tl.counter)
    (h1 : tl.counter < maxInt) : (tl.appendTask task).1.WF := by
  intro e he
  unfold TaskList.appendTask at he ⊢
  simp only [mapSet, List.mem_cons, mem_mapDelete] at he
  simp only [wrapInt_succ _ h0 h1] at he ⊢
  rcases he with he | ⟨he, _⟩
  · subst he
    simp only
    omega
  · have := h e he
    omega

theorem deleteTask_WF (tl : TaskList) (id : Int) (h : tl.WF) : (tl.deleteTask id).1.WF := by
  intro e he
  rw [deleteTask_tasks, mem_mapDelete] at he
  rw [deleteTask_counter]
  exact h e he.1

theorem stepOp_Inv (tl : TaskList) (op : RegOp) (n : Int) (h : Inv tl n) (hn : n < maxInt) :
    Inv (stepOp tl op).1 (n + 1) := by
  obtain ⟨hw, h0, h1⟩ := h
  cases op with
  | register task =>
    refine ⟨appendTask_WF tl task hw h0 (by omega), ?_, ?_⟩
    · show 0 ≤ wrapInt (tl.counter + 1)
      rw [wrapInt_succ _ h0 (by omega)]; omega
    · show wrapInt (tl.counter + 1) ≤ n + 1
      rw [wrapInt_succ _ h0 (by omega)]; omega
  | remove id =>
    refine ⟨deleteTask_WF tl id hw, ?_, ?_⟩
    · show 0 ≤ (tl.deleteTask id).1.counter
      rw [deleteTask_counter]; exact h0
    · show (tl.deleteTask id).1.counter ≤ n + 1
      rw [deleteTask_counter]; omega
  | removeAll =>
    refine ⟨?_, ?_, ?_⟩
    · intro e he
      have : (stepOp tl RegOp.removeAll).1.tasks = [] := RemoveAllTasks_tasks tl
      rw [this] at he
      cases he
    · show (0 : Int) ≤ 0
      omega
    · show (0 : Int) ≤ n + 1
      omega

theorem runOps_Inv (ops : List RegOp) (tl : TaskList) (n : Int) (h : Inv tl n)
    (hn : n + ops.length ≤ maxInt) : Inv (runOps tl ops) (n + ops.length) := by
  induction ops generalizing tl n with
  | nil => simpa [runOps] using h
  | cons op rest ih =>
    simp only [List.length_cons, Nat.cast_add, Nat.cast_one] at hn ⊢
    have h2 := stepOp_Inv tl op n h (by omega)
    have := ih (stepOp tl op).1 (n + 1) h2 (by omega)
    have e : n + (↑rest.length + 1) = n + 1 + ↑rest.length := by omega
    rw [e]
    exact this

theorem runOps_append (pre seg : List RegOp) (tl : TaskList) :
    runOps tl (pre ++ seg) = runOps (runOps tl pre) seg := by
  simp [runOps, List.foldl_append]

theorem returnedIds_increasing (seg : List RegOp) (tl : TaskList) (n : Int) (h : Inv tl n)
    (hn : n + seg.length ≤ maxInt) (hs : RegOp.removeAll ∉ seg) :
    (∀ id ∈ returnedIds tl seg, tl.counter < id) ∧
    (returnedIds tl seg).Pairwise (fun a b => a < b) := by
  induction seg generalizing tl n with
  | nil => simp [returnedIds]
  | cons op rest ih =>
    simp only [List.length_cons, Nat.cast_add, Nat.cast_one] at hn
    have h2 := stepOp_Inv tl op n h (by omega)
    have hr : RegOp.removeAll ∉ rest := fun x => hs (List.mem_cons_of_mem _ x)
    obtain ⟨ih1, ih2⟩ := ih (stepOp tl op).1 (n + 1) h2 (by omega) hr
    obtain ⟨_, h0, h1⟩ := h
    cases op with
    | register task =>
      have hc : (stepOp tl (RegOp.register task)).1.counter = tl.counter + 1 :=
        wrapInt_succ _ h0 (by omega)
      have hid : (stepOp tl (RegOp.register task)).2 = some (tl.counter + 1) := by
        show some (wrapInt (tl.counter + 1)) = _
        rw [wrapInt_succ _ h0 (by omega)]
      rw [hc] at ih1
      unfold returnedIds
      simp only [hid]
      refine ⟨?_, ?_⟩
      · intro id hidm
        rcases List.mem_cons.1 hidm with e | e
        · omega
        · have := ih1 id e; omega
      · exact List.Pairwise.cons (fun b hb => ih1 b hb) ih2
    | remove id =>
      have hc : (stepOp tl (RegOp.remove id)).1.counter = tl.counter := deleteTask_counter _ _
      rw [hc] at ih1
      unfold returnedIds
      exact ⟨ih1, ih2⟩
    | removeAll => exact absurd (List.mem_cons_self _ _) hs

theorem NewTaskList_Inv : Inv NewTaskList 0 := by
  refine ⟨?_, ?_, ?_⟩
  · intro e he; cases he
  · show (0 : Int) ≤ 0; omega
  · show (0 : Int) ≤ 0; omega

theorem store_delete (c : Int) (m : List (Int × Task)) (id : Int) (t t2 : Task)
    (h : id ∉ m.map Prod.fst) :
    ((({ counter := c, tasks := mapSet m id t } : TaskList).store id t2).deleteTask id) =
      ({ counter := c, tasks := m }, t2.Close.1, none) := by
  unfold TaskList.store
  simp only [mapGet_mapSet_self]
  unfold TaskList.deleteTask
  simp only [mapGet_mapSet_self, mapDelete_mapSet, mapDelete_of_not_mem m id h]

theorem newTask_sync_cons (name : GoString) (rest : List GoString) (now : Nat) (tf : TempFile) :
    newTask (name :: rest) false now tf =
      .ok { cmd := { Args := name :: rest, Env := [env_path], Stdout := none, Stderr := none,
                     proc := .notStarted },
            start := now, is_async := false, tmpFile := (go "None") } := by
  simp [newTask, execCommand]

theorem SyncExec_cons (tl : TaskList) (name : GoString) (rest : List GoString) (now : Nat)
    (o : RunOutcome) (hw : tl.WF) (hr : tl.counter ≤ maxInt) :
    ∃ r, tl.SyncExec (name :: rest) now o = some r ∧
      r.tl = { counter := wrapInt (tl.counter + 1), tasks := tl.tasks } := by
  have hk := WF_not_mem_succ tl hw hr
  unfold TaskList.keys at hk
  unfold TaskList.SyncExec
  simp only [newTask_sync_cons, TaskList.appendTask]
  rw [store_delete _ _ _ _ _ hk]
  exact ⟨_, rfl, rfl⟩

theorem SyncExec_result_cons (tl : TaskList) (name : GoString) (rest : List GoString) (now : Nat)
    (o : RunOutcome) :
    ∃ r, tl.SyncExec (name :: rest) now o = some r ∧
      r.result =
        (match o with
         | .startFailed e => emptyTaskResult.Fill err_code e
         | .exited _ st out =>
           if st = 0 then emptyTaskResult.Fill 0 out
           else emptyTaskResult.Fill err_code (go "exit status " ++ go (toString st))
         | .signaled _ sig _ => emptyTaskResult.Fill err_code (go "signal: " ++ sig)
         | .waitFailed _ e => emptyTaskResult.Fill err_code e) := by
  unfold TaskList.SyncExec
  simp only [newTask_sync_cons]
  refine ⟨_, rfl, ?_⟩
  cases o with
  | startFailed e =>
    simp [Cmd.CombinedOutput, Cmd.Run, Cmd.Start, Task.ExitCode, Cmd.ProcessState]
  | exited pid st out =>
    by_cases h : st = 0
    · simp [Cmd.CombinedOutput, Cmd.Run, Cmd.Start, Cmd.Wait, Task.ExitCode, Cmd.ProcessState,
        ProcessState.Success, ProcessState.text, RunOutcome.output, h]
    · simp [Cmd.CombinedOutput, Cmd.Run, Cmd.Start, Cmd.Wait, Task.ExitCode, Cmd.ProcessState,
        ProcessState.Success, ProcessState.text, RunOutcome.output, h]
  | signaled pid sig out =>
    simp [Cmd.CombinedOutput, Cmd.Run, Cmd.Start, Cmd.Wait, Task.ExitCode, Cmd.ProcessState,
        ProcessState.Success, ProcessState.text, RunOutcome.output]
  | waitFailed pid e =>
    simp [Cmd.CombinedOutput, Cmd.Run, Cmd.Start, Cmd.Wait, Task.ExitCode, Cmd.ProcessState,
        ProcessState.Success, ProcessState.text, RunOutcome.output]

/-! ## Output retrieval -/

theorem GetAsyncTaskOutput_sentinel (tl : TaskList) (key lines : Int) (now : Nat)
    (tail : RunOutcome) (during : Option RunOutcome)
    (h : mapGet tl.tasks key = none ∨ (∃ t, mapGet tl.tasks key = some t ∧ t.IsAsync = false) ∨
      lines < 1) :
    tl.GetAsyncTaskOutput key lines now tail during =
      some { tl := tl, result := emptyTaskResult.Fill on_none (StateToStr on_none),
             trace := [Effect.reply (emptyTaskResult.Fill on_none (StateToStr on_none))] } := by
  unfold TaskList.GetAsyncTaskOutput
  rcases h with h | ⟨t, h, ht⟩ | h
  · simp only [h]
  · simp only [h, ht, Bool.not_false, Bool.true_or, if_true]
  · cases hg : mapGet tl.tasks key with
    | none => rfl
    | some t => simp only [h, decide_True, Bool.or_true, if_true]

theorem State_cases (tk : Task) :
    tk.State = on_process ∨ tk.State = on_closed ∨ tk.State = on_error := by
  unfold Task.State
  cases tk.cmd.ProcessState with
  | none => exact Or.inl rfl
  | some ps =>
    by_cases h1 : ps.Exited = true <;> by_cases h2 : ps.Success = true <;> simp [h1, h2]

/-! ## The claims -/

/-- C8, as stated, fails: the byte FF is not valid UTF-8; `strings.Map` reads it
as the rune U+FFFD and writes that rune, so `Fill` turns the message `a`, FF, `b`
into `a`, EF BF BD, `b`, which is not the message with its NUL bytes deleted. The
same happens to the output of a process that `SyncExec` returns. -/
theorem Fill_invalid_utf8_counterexample :
    (emptyTaskResult.Fill 0 [0x61, 0xFF, 0x62]).Msg = [0x61, 0xEF, 0xBF, 0xBD, 0x62] ∧
    (emptyTaskResult.Fill 0 [0x61, 0xFF, 0x62]).Msg
      ≠ [0x61, 0xFF, 0x62].filter (fun b => decide (b ≠ 0)) ∧
    (TaskList.SyncExec NewTaskList [go "cat", go "blob"] 0
      (.exited 90 0 [0x61, 0xFF, 0x62])).map (fun r => r.result.Msg)
      = some [0x61, 0xEF, 0xBF, 0xBD, 0x62] := by
  decide

/-- C8, amended: for every integer `code` and string `msg`, after `Fill(code, msg)`
the result's `Code` is `code` and its `Msg` holds no NUL byte; `Msg` is the UTF-8
text of the runes of `msg`, read as `range` reads them (a byte that is not part
of a valid UTF-8 sequence as U+FFFD), without the NUL runes and with the other
runes in order; when `msg` is valid UTF-8 it is exactly `msg` with every NUL byte
deleted; and filling again with the sanitized message changes nothing. -/
theorem Fill_deletes_nul (result : TaskResult) (code : Int) (msg : GoString) :
    (result.Fill code msg).Code = code ∧
    0 ∉ (result.Fill code msg).Msg ∧
    (result.Fill code msg).Msg = encodeRunes ((runes msg).filter (fun r => decide (r ≠ 0))) ∧
    (validString msg = true →
      (result.Fill code msg).Msg = msg.filter (fun b => decide (b ≠ 0))) ∧
    (result.Fill code msg).Fill code (result.Fill code msg).Msg = result.Fill code msg := by
  refine ⟨rfl, mapLoop_no_zero msg 0, mapLoop_runes msg 0, ?_, ?_⟩
  · intro hv
    exact mapLoop_valid msg 0 hv
  · show ({ Code := code, Msg := stringsMap fillMapping (stringsMap fillMapping msg) } : TaskResult)
      = { Code := code, Msg := stringsMap fillMapping msg }
    rw [stringsMap_fill_idem]

/-- C8, amended, at the valid UTF-8 message `a`, NUL, and the euro sign. -/
theorem Fill_deletes_nul_witness :
    validString [0x61, 0, 0xE2, 0x82, 0xAC] = true ∧
    (emptyTaskResult.Fill 7 [0x61, 0, 0xE2, 0x82, 0xAC]).Msg = [0x61, 0xE2, 0x82, 0xAC] :=
  ⟨by decide,
   ((Fill_deletes_nul emptyTaskResult 7 [0x61, 0, 0xE2, 0x82, 0xAC]).2.2.2.1 (by decide)).trans
     (by decide)⟩

/-- C1: for every sequence of registry operations (register, remove, removeAll)
run from the empty registry, shorter than the largest Go `int`: every registered
id lies in `1..counter`; a register at that point returns `counter + 1`, an id
that is not registered; and in every part of the sequence without a removeAll
the ids returned by the register calls are strictly increasing. -/
theorem registry_ids_increasing (ops : List RegOp) (task : Task)
    (h : (ops.length : Int) < maxInt) :
    (∀ k ∈ (runOps NewTaskList ops).keys, 1 ≤ k ∧ k ≤ (runOps NewTaskList ops).counter) ∧
    (((runOps NewTaskList ops).appendTask task).2 = (runOps NewTaskList ops).counter + 1 ∧
      ((runOps NewTaskList ops).appendTask task).2 ∉ (runOps NewTaskList ops).keys) ∧
    (∀ pre seg, ops = pre ++ seg → RegOp.removeAll ∉ seg →
      (returnedIds (runOps NewTaskList pre) seg).Pairwise (fun a b => a < b)) := by
  have hinv := runOps_Inv ops NewTaskList 0 NewTaskList_Inv (by omega)
  obtain ⟨hw, h0, h1⟩ := hinv
  have hlt : (runOps NewTaskList ops).counter < maxInt := by omega
  refine ⟨?_, ⟨?_, ?_⟩, ?_⟩
  · intro k hk
    obtain ⟨e, he, hke⟩ := List.mem_map.1 hk
    rw [← hke]
    exact hw e he
  · exact wrapInt_succ _ h0 hlt
  · exact WF_not_mem_succ _ hw (by omega)
  · intro pre seg hops hseg
    have hlen : (ops.length : Int) = pre.length + seg.length := by
      rw [hops, List.length_append]; push_cast; rfl
    have hp := runOps_Inv pre NewTaskList 0 NewTaskList_Inv (by omega)
    exact (returnedIds_increasing seg _ _ hp (by omega) hseg).2

/-- C1, at the operations register, register, remove 1, register: the ids
returned are 1, 2, 3. -/
theorem registry_ids_increasing_witness :
    ((sampleOps.length : Int) < maxInt) ∧
    (returnedIds (runOps NewTaskList []) sampleOps).Pairwise (fun a b => a < b) ∧
    returnedIds NewTaskList sampleOps = [1, 2, 3] :=
  ⟨by decide,
   (registry_ids_increasing sampleOps runningTask (by decide)).2.2 [] sampleOps rfl (by decide),
   by decide⟩

/-- C6: for every well-formed registry whose counter is below the largest Go
`int`, every command and every process outcome, `SyncExec` returns, the
registered tasks after it are those before it, a non-empty command advances the
counter by exactly one, and an empty command leaves the registry as it is and
gives result code -1. -/
theorem SyncExec_frame (tl : TaskList) (args : List GoString) (now : Nat) (o : RunOutcome)
    (hw : tl.WF) (h0 : 0 ≤ tl.counter) (h1 : tl.counter < maxInt) :
    ∃ r, tl.SyncExec args now o = some r ∧ r.tl.tasks = tl.tasks ∧
      (args ≠ [] → r.tl.counter = tl.counter + 1) ∧
      (args = [] → r.tl = tl ∧ r.result.Code = -1) := by
  cases args with
  | nil =>
    refine ⟨_, rfl, rfl, ?_, ?_⟩
    · intro hne; exact absurd rfl hne
    · intro _; exact ⟨rfl, rfl⟩
  | cons name rest =>
    obtain ⟨r, hr, htl⟩ := SyncExec_cons tl name rest now o hw (by omega)
    refine ⟨r, hr, ?_, ?_, ?_⟩
    · rw [htl]
    · intro _
      rw [htl]
      exact wrapInt_succ _ h0 h1
    · intro hnil; cases hnil

/-- C6, at `sampleList` and the command `echo hello`. -/
theorem SyncExec_frame_witness :
    ∃ r, sampleList.SyncExec [go "echo", go "hello"] 5 (.exited 90 0 (go "hello\n")) = some r ∧
      r.tl.tasks = sampleList.tasks ∧
      ([go "echo", go "hello"] ≠ [] → r.tl.counter = sampleList.counter + 1) ∧
      ([go "echo", go "hello"] = [] → r.tl = sampleList ∧ r.result.Code = -1) :=
  SyncExec_frame sampleList [go "echo", go "hello"] 5 (.exited 90 0 (go "hello\n")) (by decide) (by decide)
    (by decide)

/-- C2, as stated, fails: `ls` on a missing path starts, writes a message and
exits with status 2; `SyncExec` returns code -1 and the text of the wait error,
not the exit code 2 and the output. -/
theorem SyncExec_nonzero_exit_counterexample :
    (TaskList.SyncExec NewTaskList [go "ls", go "/nonexistent"] 0
      (.exited 90 2 (go "ls: /nonexistent: No such file or directory\n"))).map (fun r => r.result)
      = some { Code := -1, Msg := go "exit status 2" } ∧
    (TaskList.SyncExec NewTaskList [go "ls", go "/nonexistent"] 0
      (.exited 90 2 (go "ls: /nonexistent: No such file or directory\n"))).map (fun r => r.result)
      ≠ some { Code := 2, Msg := go "ls: /nonexistent: No such file or directory\n" } := by
  decide

/-- C2, amended: for every non-empty command `SyncExec` returns; the result is
code 0 with the combined output (as `Fill` sanitizes it) when the process exits
with status 0, so `echo hello` gives code 0 and `hello` with a newline; in every
other outcome the code is -1 and the message is the error text (as `Fill`
sanitizes it): the start-up error when the process could not be started, `exit status
N` for a non-zero exit status `N`, `signal: S` for a process ended by a signal,
the wait error when waiting failed. -/
theorem SyncExec_result (tl : TaskList) (args : List GoString) (now : Nat) (hne : args ≠ []) :
    (∀ pid out, (tl.SyncExec args now (.exited pid 0 out)).map (fun r => r.result)
      = some (emptyTaskResult.Fill 0 out)) ∧
    (∀ pid, (tl.SyncExec args now (.exited pid 0 (go "hello\n"))).map (fun r => r.result)
      = some { Code := 0, Msg := go "hello\n" }) ∧
    (∀ pid st out, st ≠ 0 → (tl.SyncExec args now (.exited pid st out)).map (fun r => r.result)
      = some (emptyTaskResult.Fill (-1) (go "exit status " ++ go (toString st)))) ∧
    (∀ pid sig out, (tl.SyncExec args now (.signaled pid sig out)).map (fun r => r.result)
      = some (emptyTaskResult.Fill (-1) (go "signal: " ++ sig))) ∧
    (∀ e, (tl.SyncExec args now (.startFailed e)).map (fun r => r.result)
      = some (emptyTaskResult.Fill (-1) e)) ∧
    (∀ pid e, (tl.SyncExec args now (.waitFailed pid e)).map (fun r => r.result)
      = some (emptyTaskResult.Fill (-1) e)) := by
  cases args with
  | nil => exact absurd rfl hne
  | cons name rest =>
    refine ⟨?_, ?_, ?_, ?_, ?_, ?_⟩
    · intro pid out
      obtain ⟨r, hr, hres⟩ := SyncExec_result_cons tl name rest now (.exited pid 0 out)
      rw [hr, Option.map_some', hres]
      rfl
    · intro pid
      obtain ⟨r, hr, hres⟩ := SyncExec_result_cons tl name rest now (.exited pid 0 (go "hello\n"))
      rw [hr, Option.map_some', hres]
      show some (emptyTaskResult.Fill 0 (go "hello\n")) = some { Code := 0, Msg := go "hello\n" }
      decide
    · intro pid st out hst
      obtain ⟨r, hr, hres⟩ := SyncExec_result_cons tl name rest now (.exited pid st out)
      rw [hr, Option.map_some', hres]
      simp only [hst, if_false]
      rfl
    · intro pid sig out
      obtain ⟨r, hr, hres⟩ := SyncExec_result_cons tl name rest now (.signaled pid sig out)
      rw [hr, Option.map_some', hres]
      rfl
    · intro e
      obtain ⟨r, hr, hres⟩ := SyncExec_result_cons tl name rest now (.startFailed e)
      rw [hr, Option.map_some', hres]
      rfl
    · intro pid e
      obtain ⟨r, hr, hres⟩ := SyncExec_result_cons tl name rest now (.waitFailed pid e)
      rw [hr, Option.map_some', hres]
      rfl

/-- C2, amended, at the command `echo hello` on `sampleList`. -/
theorem SyncExec_result_witness :
    ([go "echo", go "hello"] ≠ ([] : List GoString)) ∧
    (sampleList.SyncExec [go "echo", go "hello"] 5 (.exited 90 0 (go "hello\n"))).map (fun r => r.result)
      = some { Code := 0, Msg := go "hello\n" } :=
  ⟨by decide, (SyncExec_result sampleList [go "echo", go "hello"] 5 (by decide)).2.1 90⟩

/-- C3 on the code: an async launch of `sleep 100` from the empty registry gets
id 1. When the process exits with status 0 the event sent last is (1, 2,
`OnClosed`), with status 1 it is (1, 3, `OnError`); when the process is ended by
a signal, or the wait fails, the one event sent after the wait carries the
running state: (1, 1, `OnProcess`). -/
theorem AsyncExec_completion_event :
    (TaskList.AsyncExec NewTaskList [go "sleep", go "100"] 0 ⟨some (go "/tmp/fydeshell42"), none⟩
      (.exited 77 0 (go ""))).map (fun r => r.trace.drop 2)
      = some [Effect.waited 77, Effect.notify { Key := 1, Code := 2, Msg := go "OnClosed" }] ∧
    (TaskList.AsyncExec NewTaskList [go "sleep", go "100"] 0 ⟨some (go "/tmp/fydeshell42"), none⟩
      (.exited 77 1 (go ""))).map (fun r => r.trace.drop 2)
      = some [Effect.waited 77, Effect.notify { Key := 1, Code := 3, Msg := go "OnError" }] ∧
    (TaskList.AsyncExec NewTaskList [go "sleep", go "100"] 0 ⟨some (go "/tmp/fydeshell42"), none⟩
      (.signaled 77 (go "killed") (go ""))).map (fun r => r.trace.drop 2)
      = some [Effect.waited 77, Effect.notify { Key := 1, Code := 1, Msg := go "OnProcess" }] ∧
    (TaskList.AsyncExec NewTaskList [go "sleep", go "100"] 0 ⟨some (go "/tmp/fydeshell42"), none⟩
      (.waitFailed 77 (go "wait: no child processes"))).map (fun r => r.trace.drop 2)
      = some [Effect.waited 77, Effect.notify { Key := 1, Code := 1, Msg := go "OnProcess" }] ∧
    on_process = 1 := by
  decide

/-- C5 on the code: `Close` of an async task deletes the temp file when the
process was never started and, after the kill, when it is running; for a task
whose process has exited and been waited for the kill reports an error and
`Close` returns it without deleting the temp file, so removing that task from
the registry issues no deletion. -/
theorem Close_exited_skips_remove :
    unstartedTask.Close = ([Effect.removeFile (go "/tmp/fydeshell42")], none) ∧
    runningTask.Close = ([Effect.kill 77, Effect.removeFile (go "/tmp/fydeshell42")], none) ∧
    closedTask.Close = ([Effect.kill 77], some (go "os: process already finished")) ∧
    (sampleList.deleteTask 1).2.1 = [Effect.kill 77] ∧
    (sampleList.GetAsyncTaskOutput 1 5 9 (.exited 91 0 (go "done\n")) none).map
      (fun r => r.trace.filter (fun e => decide (e = Effect.removeFile (go "/tmp/fydeshell42")))) = some [] := by
  decide

/-- C7: for every registry, id and line count, when the id is not registered, or
the registered task is not async, or the line count is below 1,
`GetAsyncTaskOutput` returns the result with state code 0 and the label `NoTask`,
starts no process, and leaves the registry unchanged. -/
theorem GetAsyncTaskOutput_soft_failure (tl : TaskList) (key lines : Int) (now : Nat)
    (tail : RunOutcome) (during : Option RunOutcome)
    (h : mapGet tl.tasks key = none ∨ (∃ t, mapGet tl.tasks key = some t ∧ t.IsAsync = false) ∨
      lines < 1) :
    ∃ r, tl.GetAsyncTaskOutput key lines now tail during = some r ∧
      r.result = { Code := 0, Msg := go "NoTask" } ∧
      (∀ a, Effect.start a ∉ r.trace) ∧ r.trace = [Effect.reply r.result] ∧ r.tl = tl := by
  refine ⟨_, GetAsyncTaskOutput_sentinel tl key lines now tail during h, ?_, ?_, rfl, rfl⟩
  · show emptyTaskResult.Fill on_none (StateToStr on_none) = { Code := 0, Msg := go "NoTask" }
    decide
  · intro a ha
    simp at ha

/-- C7, at `sampleList`: line count 0 on the registered task 2, and the unknown
id 7 with line count 5. -/
theorem GetAsyncTaskOutput_soft_failure_witness :
    (∃ r, sampleList.GetAsyncTaskOutput 2 0 9 (.exited 91 0 (go "x")) none = some r ∧
      r.result = { Code := 0, Msg := go "NoTask" } ∧
      (∀ a, Effect.start a ∉ r.trace) ∧ r.trace = [Effect.reply r.result] ∧ r.tl = sampleList) ∧
    (∃ r, sampleList.GetAsyncTaskOutput 7 5 9 (.exited 91 0 (go "x")) none = some r ∧
      r.result = { Code := 0, Msg := go "NoTask" } ∧
      (∀ a, Effect.start a ∉ r.trace) ∧ r.trace = [Effect.reply r.result] ∧ r.tl = sampleList) :=
  ⟨GetAsyncTaskOutput_soft_failure sampleList 2 0 9 (.exited 91 0 (go "x")) none (Or.inr (Or.inr (by decide))),
   GetAsyncTaskOutput_soft_failure sampleList 7 5 9 (.exited 91 0 (go "x")) none (Or.inl (by decide))⟩

/-- C9, as stated, fails: `ForceCloseTask` on the registered id 2 returns the
empty result (code 0, empty message), not id 2 with the state descriptor
labelled `NoTask` that `GetState` gives for the removed id. -/
theorem ForceCloseTask_result_counterexample :
    (ForceCloseTask sampleList 2 9).2.2 = some { Code := 0, Msg := go "" } ∧
    (ForceCloseTask sampleList 2 9).1.GetState 2 9
      = some (fmtState 2 (go "NoTask") (go "None") (-1) 0) ∧
    (ForceCloseTask sampleList 2 9).2.2
      ≠ some { Code := 2, Msg := fmtState 2 (go "NoTask") (go "None") (-1) 0 } := by
  decide

/-- C9, amended: for every registry and every id, after `ForceCloseTask` the id is
not registered, every other entry and the counter are unchanged, and the result
returned is the empty result, code 0 and empty message, whether or not the id
was registered before. -/
theorem ForceCloseTask_removes (tl : TaskList) (key : Int) (now : Nat) :
    mapGet (ForceCloseTask tl key now).1.tasks key = none ∧
    (∀ k, k ≠ key → mapGet (ForceCloseTask tl key now).1.tasks k = mapGet tl.tasks k) ∧
    (ForceCloseTask tl key now).1.counter = tl.counter ∧
    (ForceCloseTask tl key now).2.2 = some { Code := 0, Msg := go "" } := by
  have hg : mapGet (tl.deleteTask key).1.tasks key = none := by
    rw [deleteTask_tasks]
    exact mapGet_mapDelete_self _ _
  refine ⟨hg, ?_, deleteTask_counter _ _, ?_⟩
  · intro k hk
    show mapGet (tl.deleteTask key).1.tasks k = _
    rw [deleteTask_tasks]
    exact mapGet_mapDelete_ne _ _ _ hk
  · show GetTaskState (tl.deleteTask key).1 key now = _
    unfold GetTaskState TaskList.GetTask
    rw [hg]
    rfl

/-- C9, amended, at `sampleList`: closing id 2 keeps task 1; closing the unknown
id 7 returns the same empty result. -/
theorem ForceCloseTask_removes_witness :
    mapGet (ForceCloseTask sampleList 2 9).1.tasks 1 = some closedTask ∧
    (ForceCloseTask sampleList 7 9).2.2 = some { Code := 0, Msg := go "" } :=
  ⟨((ForceCloseTask_removes sampleList 2 9).2.1 1 (by decide)).trans (by decide),
   (ForceCloseTask_removes sampleList 7 9).2.2.2⟩

/-- C10 on the code: when `ioutil.TempFile` fails it returns a nil file; `newTask`
calls `Name()` through that nil file before it looks at the error, so the launch
ends in a run-time panic and returns no result, instead of the error `can't
create temp file`. -/
theorem AsyncExec_tempfile_failure_faults :
    (match newTask [go "sleep", go "1"] true 0 ⟨none, some (go "no space left on device")⟩ with
     | .fault => true
     | _ => false) = true ∧
    TaskList.AsyncExec NewTaskList [go "sleep", go "1"] 0 ⟨none, some (go "no space left on device")⟩
      (.exited 77 0 (go "")) = none := by
  decide

end ShellDaemon
